import Mathlib

/-!
A shallow embedding of the agent execution core of
`backend/app/services/agent/service.py` together with the data model of
`backend/app/models/agent.py` and `backend/app/models/intent.py`,
and proofs about its command interface, step executor, retry policy,
verification protocol and execution loop.

Conventions of the embedding:
* machine time (timestamps, durations, sleeps) is abstracted away; the
  nullable timestamp fields are kept only where a claim mentions them
  (as a `_set` Boolean);
* external collaborators (browser action executor, screenshot capture,
  the vision oracle, recovery browser actions) are abstracted as an
  environment record consulted at the same program points as in the
  source, one record per attempt of a step;
* event emission is modelled as an output list of event tags (the
  callbacks of `_emit_event` swallow their own exceptions in the source,
  so emission never alters control flow);
* Python `int` fields that the engine only ever sets from loop counters
  or compares for equality are kept as `Int` where the source allows
  arbitrary integers (step `order`, milestone bounds, the `step_index`
  command parameter) and as `Nat` where they are counts (retries,
  list indices after the bounds check).
-/

namespace AgentCore

/-- `StepStatus` of `app/models/agent.py`. -/
inductive StepStatus where
  | pending
  | running
  | completed
  | failed
  | skipped
  | retrying
  deriving DecidableEq, Repr

/-- `AgentState` of `app/models/agent.py`. -/
inductive AgentState where
  | idle
  | initializing
  | planning
  | executing
  | waiting
  | recovering
  | completed
  | failed
  | paused
  | cancelled
  deriving DecidableEq, Repr

/-- `StepType` of `app/models/intent.py`. -/
inductive StepType where
  | navigate
  | click
  | typeText
  | scroll
  | wait
  | screenshot
  | hover
  | assert_
  | narrate
  deriving DecidableEq, Repr

/-- `AgentCommand` of `app/models/agent.py`. -/
inductive AgentCommand where
  | start
  | pause
  | resume
  | stop
  | skip_step
  | retry_step
  deriving DecidableEq, Repr

/-- Modelled from the spec: `RecoveryAction` is imported by the service from
`app.models.agent` but is not defined anywhere under the sources; §4.3 of the
spec fixes the enumeration: none, close_modal, scroll_into_view,
wait_for_loading, click_overlay, refresh_page, retry. -/
inductive RecoveryAction where
  | none
  | close_modal
  | scroll_into_view
  | wait_for_loading
  | click_overlay
  | refresh_page
  | retry
  deriving DecidableEq, Repr

/-- `BrowserActionType` values the agent engine maps step types onto
(`app/services/browser`). Only the tag is relevant to the engine's control
flow; the payload fields (url/selector/value/options) never influence it. -/
inductive BrowserActionType where
  | navigate
  | click
  | typeText
  | scroll
  | wait
  | screenshot
  | hover
  | keyboard
  deriving DecidableEq, Repr

/-- Event tags emitted by the engine, with the payload components that the
properties below inspect (step order, retry counter, milestone id,
skipped index). -/
inductive EventType where
  | SESSION_CREATED
  | EXECUTION_STARTED
  | STEP_STARTED (order : Int)
  | STATE_VERIFIED (order : Int)
  | RECOVERY_STARTED
  | RECOVERY_COMPLETED
  | STEP_COMPLETED (order : Int)
  | STEP_RETRYING (order : Int) (retryCount : Nat)
  | STEP_FAILED (order : Int)
  | STEP_SKIPPED (idx : Int)
  | FEATURE_MILESTONE (mid : String)
  | EXECUTION_PAUSED
  | EXECUTION_RESUMED
  | EXECUTION_CANCELLED
  | EXECUTION_COMPLETED
  | EXECUTION_FAILED
  deriving DecidableEq, Repr

/-- `ExecutionStep` of `app/models/intent.py` (fields the engine never
reads — narration, fallback steps, metadata — omitted). -/
structure ExecutionStep where
  id : String := ""
  order : Int := 0
  step_type : StepType := .click
  description : String := ""
  target : Option String := Option.none
  value : Option String := Option.none
  wait_after_ms : Nat := 500
  screenshot_before : Bool := false
  screenshot_after : Bool := true
  expected_outcome : Option String := Option.none
  deriving DecidableEq, Repr

/-- `FeatureMilestone` of `app/models/intent.py` (the engine reads only
`id` and `end_step`; the descriptive fields are carried opaquely into the
event payload and omitted here). -/
structure FeatureMilestone where
  id : String := ""
  start_step : Int := 0
  end_step : Int := 0
  deriving DecidableEq, Repr

/-- `ExecutionPlan` of `app/models/intent.py`, restricted to what the
engine reads: the ordered steps and the milestones. -/
structure ExecutionPlan where
  steps : List ExecutionStep := []
  milestones : List FeatureMilestone := []
  deriving DecidableEq, Repr

/-- `StepExecution` of `app/models/agent.py`; timestamps are modelled as
presence flags and the screenshot payloads are dropped. -/
structure StepExecution where
  step_id : String := ""
  order : Int := 0
  status : StepStatus := .pending
  started_at_set : Bool := false
  completed_at_set : Bool := false
  error : Option String := Option.none
  retries : Nat := 0
  deriving DecidableEq, Repr

/-- `AgentSessionConfig` of `app/models/agent.py` (timeout fields, which
only parameterize real-time waits, omitted). -/
structure AgentSessionConfig where
  max_steps : Nat := 100
  max_retries_per_step : Nat := 3
  auto_screenshot : Bool := true
  pause_between_steps_ms : Nat := 500
  enable_recovery : Bool := true
  deriving DecidableEq, Repr

/-- `AgentSession` of `app/models/agent.py`, restricted to the fields the
engine and the command handlers read or write. -/
structure AgentSession where
  state : AgentState := .idle
  config : AgentSessionConfig := {}
  current_step_index : Nat := 0
  total_steps : Nat := 0
  step_executions : List StepExecution := []
  error : Option String := Option.none
  completed_at_set : Bool := false
  deriving DecidableEq, Repr

/-- Replace the element at index `n` (no-op when out of range), mirroring
`session.step_executions[step_index].status = ...` after the bounds check. -/
def modifyAt {α : Type} (l : List α) (n : Nat) (f : α → α) : List α :=
  match l, n with
  | [], _ => []
  | x :: xs, 0 => f x :: xs
  | x :: xs, Nat.succ m => x :: modifyAt xs m f

/-- Result of `AgentExecutionService.handle_command`: the updated session,
the updated pause gate (`_pause_events[session_id]`, `true` = set/open),
the returned Boolean, and the emitted events. -/
structure CommandOutcome where
  session : AgentSession
  gate : Bool
  ok : Bool
  events : List EventType
  deriving DecidableEq, Repr

/-- `AgentExecutionService.handle_command` (service.py lines 645-691) for an
existing session. `p` is `params.get("step_index")`; when absent the source
falls back to `session.current_step_index`. -/
def handle_command (s : AgentSession) (gate : Bool) (cmd : AgentCommand)
    (p : Option Int) : CommandOutcome :=
  match cmd with
  | .pause =>
      { session := { s with state := .paused },
        gate := false, ok := true, events := [.EXECUTION_PAUSED] }
  | .resume =>
      { session := { s with state := .executing },
        gate := true, ok := true, events := [.EXECUTION_RESUMED] }
  | .stop =>
      { session := { s with state := .cancelled, completed_at_set := true },
        gate := true, ok := true, events := [.EXECUTION_CANCELLED] }
  | .skip_step =>
      let idx : Int := p.getD (s.current_step_index : Int)
      if 0 ≤ idx ∧ idx < (s.step_executions.length : Int) then
        let recs := modifyAt s.step_executions idx.toNat
          (fun e => { e with status := .skipped })
        { session := { s with step_executions := recs },
          gate := gate, ok := true, events := [.STEP_SKIPPED idx] }
      else
        { session := s, gate := gate, ok := false, events := [] }
  | _ => { session := s, gate := gate, ok := false, events := [] }

/-- Modelled from the spec: `StateVerificationResult` is imported by the
service from `app.models.agent` but is not defined anywhere under the
sources; §4.3 step 3 of the spec fixes the fields: ready (bool), issue
(nullable), suggestion (nullable), recovery_action (enum, default none),
confidence (0.0-1.0), analysis (free text). -/
structure StateVerificationResult where
  ready : Bool := true
  issue : Option String := Option.none
  suggestion : Option String := Option.none
  recovery_action : RecoveryAction := .none
  confidence : ℚ := 0
  screenshot_analysis : Option String := Option.none
  deriving DecidableEq, Repr

/-- The structured JSON object the vision oracle may return, after
`json.loads`: each field is optional, `verify_state` supplies the
defaults via `result.get(...)`. -/
structure OracleReply where
  ready : Option Bool := Option.none
  issue : Option String := Option.none
  suggestion : Option String := Option.none
  recovery_action : Option String := Option.none
  confidence : Option ℚ := Option.none
  screenshot_analysis : Option String := Option.none
  deriving DecidableEq, Repr

/-- `RecoveryAction(string)` construction: the enum value whose string
matches, or a `ValueError` (here `Option.none`) which `verify_state`
swallows, keeping `NONE`. -/
def recovery_action_of_string (s : String) : Option RecoveryAction :=
  if s = "none" then Option.some .none
  else if s = "close_modal" then Option.some .close_modal
  else if s = "scroll_into_view" then Option.some .scroll_into_view
  else if s = "wait_for_loading" then Option.some .wait_for_loading
  else if s = "click_overlay" then Option.some .click_overlay
  else if s = "refresh_page" then Option.some .refresh_page
  else if s = "retry" then Option.some .retry
  else Option.none

/-- `AgentExecutionService.verify_state` (service.py lines 480-547).
`hasApiKey` models `settings.OPENAI_API_KEY` being set; `oracle` is the
outcome of the chat-completion call *and* of parsing its answer — the
single `try` of the source wraps both, so a network error and a JSON
parse error land in the same `except` branch, which fails open. -/
def verify_state (hasApiKey : Bool) (step : ExecutionStep)
    (oracle : Except String OracleReply) : StateVerificationResult :=
  if !hasApiKey then
    { ready := true, confidence := 1/2 }
  else if step.step_type = .narrate ∨ step.step_type = .wait ∨
      step.step_type = .screenshot then
    { ready := true, confidence := 1 }
  else
    match oracle with
    | .error e =>
        { ready := true, confidence := 3/10, issue := Option.some e }
    | .ok r =>
        { ready := r.ready.getD true,
          issue := r.issue,
          suggestion := r.suggestion,
          recovery_action :=
            (recovery_action_of_string (r.recovery_action.getD "none")).getD .none,
          confidence := r.confidence.getD (8/10),
          screenshot_analysis := r.screenshot_analysis }

/-- Whether a `verify_state` call actually consults the vision oracle:
the source returns early (no API call) when no API key is configured or
when the step type is one of narrate/wait/screenshot. -/
def verify_consults_oracle (hasApiKey : Bool) (step : ExecutionStep) : Bool :=
  hasApiKey &&
    !(decide (step.step_type = .narrate ∨ step.step_type = .wait ∨
      step.step_type = .screenshot))

/-- `AgentExecutionService._step_to_browser_action` (service.py lines
368-395), reduced to the action tag (the payload fields never influence
the engine's control flow). -/
def step_to_browser_action (step : ExecutionStep) : Option BrowserActionType :=
  if step.step_type = .narrate then Option.none
  else if step.step_type = .assert_ then Option.none
  else
    match step.step_type with
    | .navigate => Option.some .navigate
    | .click => Option.some .click
    | .typeText => Option.some .typeText
    | .scroll => Option.some .scroll
    | .wait => Option.some .wait
    | .screenshot => Option.some .screenshot
    | .hover => Option.some .hover
    | _ => Option.none

/-- The operations the engine performs against its external collaborators
during one attempt of a step, in program order: screenshot captures,
actual vision-oracle API calls, the recovery procedure, and the browser
action execution. -/
inductive EngineOp where
  | shot
  | oracleCall
  | recoveryProc
  | actionExec
  deriving DecidableEq, Repr

deriving instance DecidableEq for Except

/-- Environment for one attempt of one step: the outcomes the external
collaborators produce at each of the points the attempt consults them.
`shot1` is the pre-action screenshot returning data (Python truthiness of
`take_screenshot`), `oracle1` the first oracle call, `recoveryOk` the
outcome of the recovery procedure, `shot2`/`oracle2` the post-recovery
re-capture and re-verification, `actionOk`/`actionErr` the browser action
result, and `shot3` the after-screenshot. -/
structure AttemptEnv where
  shot1 : Bool := true
  oracle1 : Except String OracleReply := .ok {}
  recoveryOk : Bool := true
  shot2 : Bool := true
  oracle2 : Except String OracleReply := .ok {}
  actionOk : Bool := true
  actionErr : Option String := Option.none
  shot3 : Bool := true
  deriving DecidableEq, Repr

/-- Outcome of one attempt (the `try` block of `_execute_step`):
`err = some msg` when the block raised, the events emitted inside the
block, and the collaborator operations performed in order. -/
structure AttemptResult where
  err : Option String := Option.none
  events : List EventType := []
  ops : List EngineOp := []
  deriving DecidableEq, Repr

/-- Python `f"{o}"` on an optional string: `None` when absent. -/
def optStr (o : Option String) : String := o.getD "None"

/-- The oracle-call operations a `verify_state` call performs (one API
call when it does not return early, none otherwise). -/
def oracleOps (hasApiKey : Bool) (step : ExecutionStep) : List EngineOp :=
  if verify_consults_oracle hasApiKey step then [.oracleCall] else []

/-- The tail of the `try` block of `_execute_step` from
`action = self._step_to_browser_action(step)` on (service.py lines
298-339): execute the mapped action if any, raise on an unsuccessful
result, then capture the after-screenshot if configured. `ops0`/`evs0`
are the operations and events accumulated by the verification phase. -/
def attempt_action (cfg : AgentSessionConfig) (step : ExecutionStep)
    (a : AttemptEnv) (ops0 : List EngineOp) (evs0 : List EventType) :
    AttemptResult :=
  let afterShot : List EngineOp :=
    if step.screenshot_after && cfg.auto_screenshot then [.shot] else []
  match step_to_browser_action step with
  | Option.none =>
      { err := Option.none, events := evs0, ops := ops0 ++ afterShot }
  | Option.some _ =>
      if a.actionOk then
        { err := Option.none, events := evs0,
          ops := ops0 ++ [.actionExec] ++ afterShot }
      else
        { err := Option.some (a.actionErr.getD "Action failed"),
          events := evs0, ops := ops0 ++ [.actionExec] }

/-- The `try` block of `AgentExecutionService._execute_step` (service.py
lines 255-339): optional pre-action screenshot, state verification and
recovery when a screenshot was captured and recovery is enabled, then the
mapped browser action and the after-screenshot. `err = some msg` models
the raised exception that the `except` clause of `_execute_step`
catches. -/
def attempt_step (cfg : AgentSessionConfig) (hasApiKey : Bool)
    (step : ExecutionStep) (a : AttemptEnv) : AttemptResult :=
  let shotOps : List EngineOp := if cfg.auto_screenshot then [.shot] else []
  let shotTaken : Bool := cfg.auto_screenshot && a.shot1
  if shotTaken && cfg.enable_recovery then
    let v := verify_state hasApiKey step a.oracle1
    let preOps := shotOps ++ oracleOps hasApiKey step
    let preEvs : List EventType := [.STATE_VERIFIED step.order]
    if v.ready then
      attempt_action cfg step a preOps preEvs
    else if v.recovery_action ≠ .none then
      let recEvs : List EventType := [.RECOVERY_STARTED, .RECOVERY_COMPLETED]
      if a.recoveryOk then
        let ops2 := preOps ++ [.recoveryProc] ++ [.shot]
        if a.shot2 then
          let v2 := verify_state hasApiKey step a.oracle2
          let ops3 := ops2 ++ oracleOps hasApiKey step
          if v2.ready then
            attempt_action cfg step a ops3 (preEvs ++ recEvs)
          else
            { err := Option.some
                ("State not ready after recovery: " ++ optStr v2.issue),
              events := preEvs ++ recEvs, ops := ops3 }
        else
          attempt_action cfg step a ops2 (preEvs ++ recEvs)
      else
        { err := Option.some ("Recovery failed: " ++ optStr v.issue),
          events := preEvs ++ recEvs, ops := preOps ++ [.recoveryProc] }
    else
      { err := Option.some ("State not ready: " ++ optStr v.issue),
        events := preEvs, ops := preOps }
  else
    attempt_action cfg step a shotOps []

/-- `AgentExecutionService._check_milestone` (service.py lines 397-413):
emit `FEATURE_MILESTONE` for every milestone of the plan whose `end_step`
equals the just-completed step's order, in plan order. -/
def check_milestone (milestones : List FeatureMilestone) (step_order : Int) :
    List EventType :=
  (milestones.filter (fun m => m.end_step == step_order)).map
    (fun m => .FEATURE_MILESTONE m.id)

/-- Result of running `_execute_step` on one step record: the final
record, the emitted events, the collaborator operations, the sequence of
statuses assigned to `execution.status` in program order, and the number
of attempt bodies executed. -/
structure StepRunResult where
  ex : StepExecution
  events : List EventType := []
  ops : List EngineOp := []
  trace : List StepStatus := []
  attempts : Nat := 0
  deriving DecidableEq, Repr

/-- `AgentExecutionService._execute_step` (service.py lines 221-366):
mark the record running, emit `STEP_STARTED`, run the attempt body; on
success mark completed, emit `STEP_COMPLETED` and the milestone events;
on a raised error record it and either retry (when
`retries < max_retries_per_step` and recovery is enabled: increment the
counter, mark retrying, emit `STEP_RETRYING`, recurse) or mark failed and
emit `STEP_FAILED`. `env k` is the collaborator environment seen by the
attempt whose retry counter is `k`. -/
def execute_step (cfg : AgentSessionConfig) (hasApiKey : Bool)
    (milestones : List FeatureMilestone) (step : ExecutionStep)
    (env : Nat → AttemptEnv) (ex : StepExecution) : StepRunResult :=
  let ex1 : StepExecution := { ex with status := .running, started_at_set := true }
  let startEvs : List EventType := [.STEP_STARTED step.order]
  let att := attempt_step cfg hasApiKey step (env ex1.retries)
  match att.err with
  | Option.none =>
      let ex2 : StepExecution := { ex1 with status := .completed, completed_at_set := true }
      let msEvs := check_milestone milestones step.order
      { ex := ex2,
        events := startEvs ++ att.events ++ [.STEP_COMPLETED step.order] ++ msEvs,
        ops := att.ops,
        trace := [.running, .completed],
        attempts := 1 }
  | Option.some e =>
      let ex2 : StepExecution := { ex1 with error := Option.some e }
      if h : ex2.retries < cfg.max_retries_per_step ∧ cfg.enable_recovery then
        let ex3 : StepExecution := { ex2 with retries := ex2.retries + 1, status := .retrying }
        let r := execute_step cfg hasApiKey milestones step env ex3
        { ex := r.ex,
          events := startEvs ++ att.events ++
            [.STEP_RETRYING step.order ex3.retries] ++ r.events,
          ops := att.ops ++ r.ops,
          trace := [.running, .retrying] ++ r.trace,
          attempts := r.attempts + 1 }
      else
        let ex3 : StepExecution := { ex2 with status := .failed, completed_at_set := true }
        { ex := ex3,
          events := startEvs ++ att.events ++ [.STEP_FAILED step.order],
          ops := att.ops,
          trace := [.running, .failed],
          attempts := 1 }
termination_by cfg.max_retries_per_step + 1 - ex.retries
decreasing_by
  simp only [StepExecution.mk.injEq] at h ⊢
  omega

/-- The step-execution records `create_session` pre-populates, one per
plan step, all `pending` (service.py lines 110-114). -/
def mk_step_executions (plan : ExecutionPlan) : List StepExecution :=
  plan.steps.map (fun st => { step_id := st.id, order := st.order })

/-- The session object `AgentExecutionService.create_session` registers
(service.py lines 93-119): fresh state, the supplied config, one pending
record per plan step, and an open (set) pause gate. -/
def create_session (cfg : AgentSessionConfig) (plan : ExecutionPlan) :
    AgentSession :=
  { state := .idle, config := cfg, total_steps := plan.steps.length,
    step_executions := mk_step_executions plan }

/-- The `for i, step in enumerate(plan.steps)` loop of
`AgentExecutionService._start_execution` (service.py lines 172-185) for a
run during which no command arrives: the pause gate stays open and the
session state is only ever changed by the loop itself.  An index outside
the record list would raise `IndexError` out of the loop's `try`, which
`_start_execution` turns into the `failed` state with
`EXECUTION_FAILED`. -/
def run_steps (cfg : AgentSessionConfig) (hasApiKey : Bool)
    (ms : List FeatureMilestone) (env : Nat → Nat → AttemptEnv) :
    List ExecutionStep → Nat → AgentSession → AgentSession × List EventType
  | [], _, s => (s, [])
  | step :: rest, i, s =>
      if s.state = .cancelled ∨ s.state = .failed then (s, [])
      else if s.state = .paused then
        run_steps cfg hasApiKey ms env rest (i + 1) s
      else
        let s1 : AgentSession := { s with current_step_index := i }
        if h : i < s1.step_executions.length then
          let r := execute_step cfg hasApiKey ms step (env i)
            (s1.step_executions.get ⟨i, h⟩)
          let recs := modifyAt s1.step_executions i (fun _ => r.ex)
          let s2 : AgentSession := { s1 with step_executions := recs }
          let p := run_steps cfg hasApiKey ms env rest (i + 1) s2
          (p.1, r.events ++ p.2)
        else
          let sF : AgentSession := { s1 with
            state := .failed,
            error := Option.some "list index out of range",
            completed_at_set := true }
          (sF, [.EXECUTION_FAILED])

/-- `AgentExecutionService._start_execution` (service.py lines 140-219)
for a command-free run with successful browser acquisition: mark the
session executing, emit `EXECUTION_STARTED`, drive the loop, and if the
state is still `executing` afterwards mark it `completed` and emit
`EXECUTION_COMPLETED`. -/
def run_execution (cfg : AgentSessionConfig) (hasApiKey : Bool)
    (plan : ExecutionPlan) (env : Nat → Nat → AttemptEnv) :
    AgentSession × List EventType :=
  let s1 : AgentSession := { create_session cfg plan with state := .executing }
  let p := run_steps cfg hasApiKey plan.milestones env plan.steps 0 s1
  if p.1.state = .executing then
    ({ p.1 with state := .completed, completed_at_set := true },
     [.EXECUTION_STARTED] ++ p.2 ++ [.EXECUTION_COMPLETED])
  else
    (p.1, [.EXECUTION_STARTED] ++ p.2)

/-- Deliver a batch of commands (each with its optional `step_index`
parameter) through `handle_command`, threading session and pause gate. -/
def apply_cmds : AgentSession → Bool → List (AgentCommand × Option Int) →
    AgentSession × Bool × List EventType
  | s, gate, [] => (s, gate, [])
  | s, gate, (c, p) :: rest =>
      let o := handle_command s gate c p
      let r := apply_cmds o.session o.gate rest
      (r.1, r.2.1, o.events ++ r.2.2)

/-- A schedule of command deliveries for one run of the loop: `pre i` is
the batch handled just before the loop's top-of-iteration state check of
iteration `i` (the commands arrive while the task is suspended between
steps), `atGate i` the batch handled while the loop is blocked on the
pause gate in iteration `i` (delivered only if the gate is closed when
the loop reaches the wait). -/
structure CommandSched where
  pre : Nat → List (AgentCommand × Option Int) := fun _ => []
  atGate : Nat → List (AgentCommand × Option Int) := fun _ => []

/-- Outcome of a scheduled run: final session, final gate, events, and
whether the loop is still parked on a closed pause gate with no further
scheduled commands to open it. -/
structure LoopOutcome where
  session : AgentSession
  gate : Bool
  events : List EventType := []
  blockedForever : Bool := false
  deriving Repr

/-- The loop of `_start_execution` with commands interleaved at its two
suspension points per iteration (the inter-step suspension and the pause
gate `await ... wait()`): the state check at the top, the gate wait
(returning only once the gate is open), the `continue` when the state is
`paused`, otherwise the step execution (service.py lines 172-185). -/
def run_steps_cmds (cfg : AgentSessionConfig) (hasApiKey : Bool)
    (ms : List FeatureMilestone) (env : Nat → Nat → AttemptEnv)
    (sched : CommandSched) :
    List ExecutionStep → Nat → AgentSession → Bool → LoopOutcome
  | [], _, s, gate => { session := s, gate := gate, events := [] }
  | step :: rest, i, s0, gate0 =>
      let (s, gate, evs0) := apply_cmds s0 gate0 (sched.pre i)
      if s.state = .cancelled ∨ s.state = .failed then
        { session := s, gate := gate, events := evs0 }
      else
        let (s, gate, evs1) :=
          if gate then (s, gate, ([] : List EventType))
          else apply_cmds s gate (sched.atGate i)
        if gate then
          if s.state = .paused then
            let r := run_steps_cmds cfg hasApiKey ms env sched rest (i + 1) s gate
            { r with events := evs0 ++ evs1 ++ r.events }
          else
            let s1 : AgentSession := { s with current_step_index := i }
            if h : i < s1.step_executions.length then
              let r := execute_step cfg hasApiKey ms step (env i)
                (s1.step_executions.get ⟨i, h⟩)
              let recs := modifyAt s1.step_executions i (fun _ => r.ex)
              let s2 : AgentSession := { s1 with step_executions := recs }
              let rr := run_steps_cmds cfg hasApiKey ms env sched rest (i + 1) s2 gate
              { rr with events := evs0 ++ evs1 ++ r.events ++ rr.events }
            else
              let sF : AgentSession := { s1 with
                state := .failed,
                error := Option.some "list index out of range",
                completed_at_set := true }
              { session := sF, gate := gate,
                events := evs0 ++ evs1 ++ [.EXECUTION_FAILED] }
        else
          { session := s, gate := gate, events := evs0 ++ evs1,
            blockedForever := true }

/-- `_start_execution` driven by a command schedule: like
`run_execution`, but commands may arrive at the loop's suspension
points. -/
def run_execution_cmds (cfg : AgentSessionConfig) (hasApiKey : Bool)
    (plan : ExecutionPlan) (env : Nat → Nat → AttemptEnv)
    (sched : CommandSched) : LoopOutcome :=
  let s1 : AgentSession := { create_session cfg plan with state := .executing }
  let r := run_steps_cmds cfg hasApiKey plan.milestones env sched plan.steps 0 s1 true
  if r.blockedForever then
    { r with events := [.EXECUTION_STARTED] ++ r.events }
  else if r.session.state = .executing then
    { r with
      session := { r.session with state := .completed, completed_at_set := true },
      events := [.EXECUTION_STARTED] ++ r.events ++ [.EXECUTION_COMPLETED] }
  else
    { r with events := [.EXECUTION_STARTED] ++ r.events }

instance : Inhabited StepExecution := ⟨{}⟩

instance : Inhabited ExecutionStep := ⟨{}⟩

/-- The per-step state machine of §4.2 of the spec, as quoted by the
claims: `pending → running → (completed | failed | retrying → running |
skipped)`, with `pending/running → skipped` for the SKIP command. -/
def stepEdge : StepStatus → StepStatus → Bool
  | .pending, .running => true
  | .running, .completed => true
  | .running, .failed => true
  | .running, .retrying => true
  | .retrying, .running => true
  | .pending, .skipped => true
  | .running, .skipped => true
  | _, _ => false

/-- `chainOk a l` holds when every consecutive pair of `a :: l` is an
edge of the per-step state machine. -/
def chainOk : StepStatus → List StepStatus → Bool
  | _, [] => true
  | a, b :: rest => stepEdge a b && chainOk b rest

theorem modifyAt_length {α : Type} (l : List α) (n : Nat) (f : α → α) :
    (modifyAt l n f).length = l.length := by
  induction l generalizing n with
  | nil => rfl
  | cons x xs ih =>
      cases n with
      | zero => rfl
      | succ m => simp [modifyAt, ih]

theorem modifyAt_getD_self {α : Type} (l : List α) (n : Nat) (f : α → α)
    (d : α) (h : n < l.length) :
    (modifyAt l n f).getD n d = f (l.getD n d) := by
  induction l generalizing n with
  | nil => simp at h
  | cons x xs ih =>
      cases n with
      | zero => simp [modifyAt]
      | succ m =>
          simp only [modifyAt, List.getD_cons_succ]
          exact ih m (by simpa using h)

theorem modifyAt_getD_ne {α : Type} (l : List α) (n j : Nat) (f : α → α)
    (d : α) (h : j ≠ n) :
    (modifyAt l n f).getD j d = l.getD j d := by
  induction l generalizing n j with
  | nil => rfl
  | cons x xs ih =>
      cases n with
      | zero =>
          cases j with
          | zero => exact absurd rfl h
          | succ jj => simp [modifyAt]
      | succ m =>
          cases j with
          | zero => simp [modifyAt]
          | succ jj =>
              simp only [modifyAt, List.getD_cons_succ]
              exact ih m jj (by omega)

/-- Occurrences of `FEATURE_MILESTONE` for a given milestone id in an
event stream. -/
def countFM (mid : String) : List EventType → Nat
  | [] => 0
  | .FEATURE_MILESTONE m :: rest => (if m = mid then 1 else 0) + countFM mid rest
  | .SESSION_CREATED :: rest => countFM mid rest
  | .EXECUTION_STARTED :: rest => countFM mid rest
  | .STEP_STARTED _ :: rest => countFM mid rest
  | .STATE_VERIFIED _ :: rest => countFM mid rest
  | .RECOVERY_STARTED :: rest => countFM mid rest
  | .RECOVERY_COMPLETED :: rest => countFM mid rest
  | .STEP_COMPLETED _ :: rest => countFM mid rest
  | .STEP_RETRYING _ _ :: rest => countFM mid rest
  | .STEP_FAILED _ :: rest => countFM mid rest
  | .STEP_SKIPPED _ :: rest => countFM mid rest
  | .EXECUTION_PAUSED :: rest => countFM mid rest
  | .EXECUTION_RESUMED :: rest => countFM mid rest
  | .EXECUTION_CANCELLED :: rest => countFM mid rest
  | .EXECUTION_COMPLETED :: rest => countFM mid rest
  | .EXECUTION_FAILED :: rest => countFM mid rest

theorem countFM_append (mid : String) (a b : List EventType) :
    countFM mid (a ++ b) = countFM mid a + countFM mid b := by
  induction a with
  | nil => simp [countFM]
  | cons x rest ih =>
      cases x <;> simp [countFM, ih] <;> omega

/-- The attempt body emits no milestone events: only `STATE_VERIFIED`,
`RECOVERY_STARTED` and `RECOVERY_COMPLETED` originate there. -/
theorem countFM_attempt (mid : String) (cfg : AgentSessionConfig) (k : Bool)
    (step : ExecutionStep) (a : AttemptEnv) :
    countFM mid (attempt_step cfg k step a).events = 0 := by
  unfold attempt_step attempt_action
  dsimp only
  repeat' split
  all_goals simp [countFM, countFM_append]

/-- The retry counter of `_execute_step` never exceeds
`max_retries_per_step` (fuel-indexed version; the fuel dominates the
recursion measure). -/
theorem execute_step_retries_le_aux (cfg : AgentSessionConfig) (k : Bool)
    (ms : List FeatureMilestone) (step : ExecutionStep) (env : Nat → AttemptEnv) :
    ∀ (n : Nat) (ex : StepExecution),
      cfg.max_retries_per_step + 1 - ex.retries ≤ n →
      ex.retries ≤ cfg.max_retries_per_step →
      (execute_step cfg k ms step env ex).ex.retries ≤ cfg.max_retries_per_step := by
  intro n
  induction n with
  | zero =>
      intro ex hm hr
      omega
  | succ m ih =>
      intro ex hm hr
      unfold execute_step
      dsimp only
      split
      · exact hr
      · split
        · next h =>
            have h1 : ex.retries < cfg.max_retries_per_step := h.1
            apply ih
            · dsimp only
              omega
            · dsimp only
              omega
        · next h =>
            exact hr

/-- Every run of `_execute_step` leaves the record `completed`, or
`failed` with the error recorded. -/
theorem execute_step_final_status_aux (cfg : AgentSessionConfig) (k : Bool)
    (ms : List FeatureMilestone) (step : ExecutionStep) (env : Nat → AttemptEnv) :
    ∀ (n : Nat) (ex : StepExecution),
      cfg.max_retries_per_step + 1 - ex.retries ≤ n →
      (execute_step cfg k ms step env ex).ex.status = .completed ∨
      ((execute_step cfg k ms step env ex).ex.status = .failed ∧
        (execute_step cfg k ms step env ex).ex.error.isSome = true) := by
  intro n
  induction n with
  | zero =>
      intro ex hm
      unfold execute_step
      dsimp only
      split
      · left; rfl
      · split
        · next h =>
            have h1 : ex.retries < cfg.max_retries_per_step := h.1
            omega
        · right; exact ⟨rfl, rfl⟩
  | succ m ih =>
      intro ex hm
      unfold execute_step
      dsimp only
      split
      · left; rfl
      · split
        · next h =>
            have h1 : ex.retries < cfg.max_retries_per_step := h.1
            apply ih
            dsimp only
            omega
        · right; exact ⟨rfl, rfl⟩

/-- The statuses `_execute_step` assigns form a path of the per-step
machine continuing from `running`. -/
theorem execute_step_trace_aux (cfg : AgentSessionConfig) (k : Bool)
    (ms : List FeatureMilestone) (step : ExecutionStep) (env : Nat → AttemptEnv) :
    ∀ (n : Nat) (ex : StepExecution),
      cfg.max_retries_per_step + 1 - ex.retries ≤ n →
      ∃ t, (execute_step cfg k ms step env ex).trace = .running :: t ∧
        chainOk .running t = true := by
  intro n
  induction n with
  | zero =>
      intro ex hm
      unfold execute_step
      dsimp only
      split
      · exact ⟨[.completed], rfl, rfl⟩
      · split
        · next h =>
            have h1 : ex.retries < cfg.max_retries_per_step := h.1
            omega
        · exact ⟨[.failed], rfl, rfl⟩
  | succ m ih =>
      intro ex hm
      unfold execute_step
      dsimp only
      split
      · exact ⟨[.completed], rfl, rfl⟩
      · split
        · next h =>
            rename_i e heq
            have h1 : ex.retries < cfg.max_retries_per_step := h.1
            obtain ⟨t, ht, hc⟩ := ih ⟨ex.step_id, ex.order, .retrying, true,
              ex.completed_at_set, Option.some e, ex.retries + 1⟩ (by dsimp only; omega)
            refine ⟨.retrying :: .running :: t, ?_, ?_⟩
            · dsimp only
              rw [ht]
              rfl
            · simp [chainOk, stepEdge, hc]
        · exact ⟨[.failed], rfl, rfl⟩

/-- When every attempt of a step raises, `_execute_step` ends `failed`,
and executes `max_retries_per_step - retries + 1` attempt bodies when
recovery is enabled, a single one when it is disabled. -/
theorem execute_step_attempts_aux (cfg : AgentSessionConfig) (k : Bool)
    (ms : List FeatureMilestone) (step : ExecutionStep) (env : Nat → AttemptEnv)
    (H : ∀ j, (attempt_step cfg k step (env j)).err.isSome = true) :
    ∀ (n : Nat) (ex : StepExecution),
      cfg.max_retries_per_step + 1 - ex.retries ≤ n →
      (execute_step cfg k ms step env ex).ex.status = .failed ∧
      (cfg.enable_recovery = false →
        (execute_step cfg k ms step env ex).attempts = 1) ∧
      (cfg.enable_recovery = true → ex.retries ≤ cfg.max_retries_per_step →
        (execute_step cfg k ms step env ex).attempts =
          cfg.max_retries_per_step - ex.retries + 1) := by
  intro n
  induction n with
  | zero =>
      intro ex hm
      unfold execute_step
      dsimp only
      split
      · next heq =>
          have hh := H ex.retries
          rw [heq] at hh
          simp at hh
      · split
        · next h =>
            have h1 : ex.retries < cfg.max_retries_per_step := h.1
            omega
        · next h =>
            refine ⟨rfl, fun _ => rfl, fun hrec hle => ?_⟩
            dsimp only
            have h2 : ¬ ex.retries < cfg.max_retries_per_step := by
              intro hlt
              exact h ⟨hlt, hrec⟩
            omega
  | succ m ih =>
      intro ex hm
      unfold execute_step
      dsimp only
      split
      · next heq =>
          have hh := H ex.retries
          rw [heq] at hh
          simp at hh
      · split
        · next h =>
            rename_i e heq
            have h1 : ex.retries < cfg.max_retries_per_step := h.1
            have hrec := ih ⟨ex.step_id, ex.order, .retrying, true,
              ex.completed_at_set, Option.some e, ex.retries + 1⟩ (by dsimp only; omega)
            refine ⟨hrec.1, fun hfalse => ?_, fun htrue hle => ?_⟩
            · rw [hfalse] at h
              exact absurd h.2 (by simp)
            · dsimp only
              have := hrec.2.2 htrue (by dsimp only; omega)
              dsimp only at this
              omega
        · next h =>
            refine ⟨rfl, fun _ => rfl, fun hrec hle => ?_⟩
            dsimp only
            have h2 : ¬ ex.retries < cfg.max_retries_per_step := by
              intro hlt
              exact h ⟨hlt, hrec⟩
            omega

/-- When the first attempt of `_execute_step` succeeds, the record is
marked `completed` after a single attempt. -/
theorem execute_step_first_success (cfg : AgentSessionConfig) (k : Bool)
    (ms : List FeatureMilestone) (step : ExecutionStep) (env : Nat → AttemptEnv)
    (ex : StepExecution)
    (h : (attempt_step cfg k step (env ex.retries)).err = Option.none) :
    (execute_step cfg k ms step env ex).ex.status = .completed ∧
    (execute_step cfg k ms step env ex).attempts = 1 := by
  unfold execute_step
  dsimp only
  split
  · exact ⟨rfl, rfl⟩
  · next heq =>
      rw [h] at heq
      cases heq

/-- Milestone events inside one `_execute_step` run: when the record ends
`completed`, the event list is some milestone-free prefix followed by
`STEP_COMPLETED` and exactly the `check_milestone` events; when it ends
otherwise, no milestone event is emitted at all. -/
theorem execute_step_fm_aux (mid : String) (cfg : AgentSessionConfig) (k : Bool)
    (ms : List FeatureMilestone) (step : ExecutionStep) (env : Nat → AttemptEnv) :
    ∀ (n : Nat) (ex : StepExecution),
      cfg.max_retries_per_step + 1 - ex.retries ≤ n →
      ((execute_step cfg k ms step env ex).ex.status = .completed →
        ∃ pre, (execute_step cfg k ms step env ex).events =
            pre ++ [EventType.STEP_COMPLETED step.order] ++ check_milestone ms step.order ∧
          countFM mid pre = 0) ∧
      ((execute_step cfg k ms step env ex).ex.status ≠ .completed →
        countFM mid (execute_step cfg k ms step env ex).events = 0) := by
  intro n
  induction n with
  | zero =>
      intro ex hm
      unfold execute_step
      dsimp only
      split
      · refine ⟨fun _ => ?_, fun hne => absurd rfl hne⟩
        refine ⟨[EventType.STEP_STARTED step.order] ++
          (attempt_step cfg k step (env ex.retries)).events, ?_, ?_⟩
        · simp
        · simp [countFM_append, countFM, countFM_attempt]
      · split
        · next h =>
            have h1 : ex.retries < cfg.max_retries_per_step := h.1
            omega
        · refine ⟨fun hc => ?_, fun _ => ?_⟩
          · cases hc
          · simp [countFM_append, countFM, countFM_attempt]
  | succ m ih =>
      intro ex hm
      unfold execute_step
      dsimp only
      split
      · refine ⟨fun _ => ?_, fun hne => absurd rfl hne⟩
        refine ⟨[EventType.STEP_STARTED step.order] ++
          (attempt_step cfg k step (env ex.retries)).events, ?_, ?_⟩
        · simp
        · simp [countFM_append, countFM, countFM_attempt]
      · split
        · next h =>
            rename_i e heq
            have h1 : ex.retries < cfg.max_retries_per_step := h.1
            have hrec := ih ⟨ex.step_id, ex.order, .retrying, true,
              ex.completed_at_set, Option.some e, ex.retries + 1⟩ (by dsimp only; omega)
            refine ⟨fun hcomp => ?_, fun hne => ?_⟩
            · obtain ⟨pre, hpre, hcnt⟩ := hrec.1 hcomp
              refine ⟨[EventType.STEP_STARTED step.order] ++
                (attempt_step cfg k step (env ex.retries)).events ++
                [EventType.STEP_RETRYING step.order (ex.retries + 1)] ++ pre, ?_, ?_⟩
              · dsimp only
                rw [hpre]
                simp
              · simp [countFM_append, countFM, countFM_attempt, hcnt]
            · have := hrec.2 hne
              dsimp only
              simp [countFM_append, countFM, countFM_attempt, this]
        · refine ⟨fun hc => ?_, fun _ => ?_⟩
          · cases hc
          · simp [countFM_append, countFM, countFM_attempt]

/-- The session as the loop leaves it after executing the step at index
`i`: current index updated, record `i` replaced by the executor's
result. -/
def sessionAfterStep (s : AgentSession) (i : Nat) (r : StepRunResult) : AgentSession :=
  { s with
    current_step_index := i,
    step_executions := modifyAt s.step_executions i (fun _ => r.ex) }

theorem run_steps_cons_exec (cfg : AgentSessionConfig) (k : Bool)
    (ms : List FeatureMilestone) (env : Nat → Nat → AttemptEnv)
    (step : ExecutionStep) (rest : List ExecutionStep) (i : Nat)
    (s : AgentSession) (hs : s.state = .executing)
    (hi : i < s.step_executions.length) :
    run_steps cfg k ms env (step :: rest) i s =
      ((run_steps cfg k ms env rest (i + 1) (sessionAfterStep s i
          (execute_step cfg k ms step (env i) (s.step_executions.getD i default)))).1,
        (execute_step cfg k ms step (env i) (s.step_executions.getD i default)).events ++
        (run_steps cfg k ms env rest (i + 1) (sessionAfterStep s i
          (execute_step cfg k ms step (env i) (s.step_executions.getD i default)))).2) := by
  rw [show s.step_executions.getD i default = s.step_executions.get ⟨i, hi⟩ from
    List.getD_eq_get _ _ hi]
  conv =>
    lhs
    rw [run_steps]
  rw [if_neg (by rw [hs]; simp), if_neg (by rw [hs]; simp), dif_pos hi]
  dsimp only [sessionAfterStep]

/-- What the command-free loop of `_start_execution` does on a session in
`executing` state whose record list matches the remaining steps: it stays
`executing`, records before `i` are untouched, record `i + t` becomes the
result of `_execute_step` on step `t`, and the events are the
concatenation of the per-step events in plan order. -/
theorem run_steps_spec (cfg : AgentSessionConfig) (k : Bool) (ms : List FeatureMilestone)
    (env : Nat → Nat → AttemptEnv) :
    ∀ (steps : List ExecutionStep) (i : Nat) (s : AgentSession),
      s.state = .executing →
      s.step_executions.length = i + steps.length →
      (run_steps cfg k ms env steps i s).1.state = .executing ∧
      (run_steps cfg k ms env steps i s).1.step_executions.length = s.step_executions.length ∧
      (∀ j, j < i → (run_steps cfg k ms env steps i s).1.step_executions.getD j default =
        s.step_executions.getD j default) ∧
      (∀ t, t < steps.length →
        (run_steps cfg k ms env steps i s).1.step_executions.getD (i + t) default =
          (execute_step cfg k ms (steps.getD t default) (env (i + t))
            (s.step_executions.getD (i + t) default)).ex) ∧
      (run_steps cfg k ms env steps i s).2 =
        ((List.range steps.length).map (fun t =>
          (execute_step cfg k ms (steps.getD t default) (env (i + t))
            (s.step_executions.getD (i + t) default)).events)).flatten := by
  intro steps
  induction steps with
  | nil =>
      intro i s hs hlen
      refine ⟨hs, rfl, fun j _ => rfl, fun t ht => absurd ht (by simp), ?_⟩
      simp [run_steps]
  | cons step rest ih =>
      intro i s hs hlen
      have hi : i < s.step_executions.length := by
        simp at hlen
        omega
      rw [run_steps_cons_exec cfg k ms env step rest i s hs hi]
      dsimp only
      set r := execute_step cfg k ms step (env i) (s.step_executions.getD i default) with hrdef
      set s2 := sessionAfterStep s i r with hs2def
      have hs2state : s2.state = .executing := hs
      have hs2len : s2.step_executions.length = (i + 1) + rest.length := by
        show (modifyAt s.step_executions i fun _ => r.ex).length = _
        rw [modifyAt_length]
        simp at hlen
        omega
      have hs2getD : ∀ j, j ≠ i →
          s2.step_executions.getD j default = s.step_executions.getD j default := by
        intro j hj
        show (modifyAt s.step_executions i fun _ => r.ex).getD j default = _
        exact modifyAt_getD_ne _ _ _ _ _ hj
      have hs2getDi : s2.step_executions.getD i default = r.ex := by
        show (modifyAt s.step_executions i fun _ => r.ex).getD i default = r.ex
        rw [modifyAt_getD_self _ _ _ _ hi]
      obtain ⟨ih1, ih2, ih3, ih4, ih5⟩ := ih (i + 1) s2 hs2state hs2len
      refine ⟨ih1, ?_, ?_, ?_, ?_⟩
      · rw [ih2, hs2len]
        simp at hlen
        omega
      · intro j hj
        rw [ih3 j (by omega), hs2getD j (by omega)]
      · intro t ht
        match t with
        | 0 =>
            simp only [Nat.add_zero, List.getD_cons_zero]
            rw [ih3 i (by omega), hs2getDi]
        | Nat.succ u =>
            have harith : i + (u + 1) = (i + 1) + u := by omega
            rw [harith]
            rw [ih4 u (by simpa using ht)]
            rw [hs2getD ((i + 1) + u) (by omega)]
            simp only [List.getD_cons_succ]
      · rw [ih5]
        rw [List.length_cons, List.range_succ_eq_map]
        rw [List.map_cons, List.map_map, List.flatten_cons]
        simp only [Nat.add_zero, List.getD_cons_zero]
        rw [← hrdef]
        congr 1
        congr 1
        apply List.map_congr_left
        intro u humem
        have hu : u < rest.length := List.mem_range.mp humem
        simp only [Function.comp]
        have harith : i + (u + 1) = (i + 1) + u := by omega
        rw [harith]
        rw [hs2getD ((i + 1) + u) (by omega)]
        simp only [List.getD_cons_succ]

theorem mk_step_executions_length (plan : ExecutionPlan) :
    (mk_step_executions plan).length = plan.steps.length := by
  simp [mk_step_executions]

theorem mk_step_executions_getD (plan : ExecutionPlan) (t : Nat)
    (ht : t < plan.steps.length) :
    (mk_step_executions plan).getD t default =
      { step_id := (plan.steps.getD t default).id,
        order := (plan.steps.getD t default).order } := by
  have ht2 : t < (mk_step_executions plan).length := by
    rw [mk_step_executions_length]
    exact ht
  rw [List.getD_eq_getElem _ _ ht2, List.getD_eq_getElem _ _ ht]
  simp [mk_step_executions]

/-- A command-free run with successful setup: the session ends
`completed`, record `t` is exactly what `_execute_step` produces on plan
step `t` starting from its fresh pending record, and the event stream is
`EXECUTION_STARTED`, the per-step events in order, `EXECUTION_COMPLETED`. -/
theorem run_execution_spec (cfg : AgentSessionConfig) (k : Bool)
    (plan : ExecutionPlan) (env : Nat → Nat → AttemptEnv) :
    (run_execution cfg k plan env).1.state = .completed ∧
    (run_execution cfg k plan env).1.step_executions.length = plan.steps.length ∧
    (∀ t, t < plan.steps.length →
      (run_execution cfg k plan env).1.step_executions.getD t default =
        (execute_step cfg k plan.milestones (plan.steps.getD t default) (env t)
          ((mk_step_executions plan).getD t default)).ex) ∧
    (run_execution cfg k plan env).2 =
      [EventType.EXECUTION_STARTED] ++
      ((List.range plan.steps.length).map (fun t =>
        (execute_step cfg k plan.milestones (plan.steps.getD t default) (env t)
          ((mk_step_executions plan).getD t default)).events)).flatten ++
      [EventType.EXECUTION_COMPLETED] := by
  have hspec := run_steps_spec cfg k plan.milestones env plan.steps 0
    { create_session cfg plan with state := .executing } rfl
    (by simp [create_session, mk_step_executions_length])
  obtain ⟨h1, h2, _h3, h4, h5⟩ := hspec
  unfold run_execution
  rw [if_pos h1]
  refine ⟨rfl, ?_, ?_, ?_⟩
  · show (run_steps cfg k plan.milestones env plan.steps 0 _).1.step_executions.length = _
    rw [h2]
    simp [create_session, mk_step_executions_length]
  · intro t ht
    show (run_steps cfg k plan.milestones env plan.steps 0 _).1.step_executions.getD t default = _
    have := h4 t ht
    rw [Nat.zero_add] at this
    exact this
  · have h5b := h5
    dsimp only [create_session] at h5b
    simp only [Nat.zero_add] at h5b
    dsimp only [create_session]
    rw [h5b]

theorem skip_sets_skipped (s : AgentSession) (gate : Bool) (i : Nat)
    (h : i < s.step_executions.length) :
    (handle_command s gate .skip_step (Option.some (i : Int))).session.step_executions.getD i default
      = { s.step_executions.getD i default with status := .skipped } ∧
    (handle_command s gate .skip_step (Option.some (i : Int))).ok = true ∧
    (handle_command s gate .skip_step (Option.some (i : Int))).events =
      [EventType.STEP_SKIPPED (i : Int)] := by
  unfold handle_command
  dsimp only
  simp only [Option.getD_some]
  rw [if_pos ⟨Int.ofNat_nonneg i, by exact_mod_cast h⟩]
  refine ⟨?_, rfl, rfl⟩
  dsimp only
  rw [show ((i : Int)).toNat = i from Int.toNat_natCast i]
  rw [modifyAt_getD_self _ _ _ _ h]

/-- A registered session whose single step-execution record is already
`completed` (the loop has run it), used against the SKIP_STEP handler. -/
def doneRecord : StepExecution :=
  { step_id := "s1", order := 1, status := .completed,
    started_at_set := true, completed_at_set := true }

def doneSession : AgentSession :=
  { state := .executing, total_steps := 1, step_executions := [doneRecord] }

/-- C2 counterexample: `handle_command` applies SKIP_STEP to a step record
whose status is already `completed` and overwrites it to `skipped`,
returning success — the source has no status guard, so the claimed no-op
on completed steps is false. -/
theorem c2_skip_overwrites_completed_cex :
    (doneSession.step_executions.getD 0 default).status = .completed ∧
    ((handle_command doneSession true .skip_step (Option.some 0)).session.step_executions.getD 0
      default).status = .skipped ∧
    (handle_command doneSession true .skip_step (Option.some 0)).ok = true := by
  decide

/-- C2 (amended): SKIP_STEP with any in-bounds index marks the targeted
record `skipped` regardless of its current status (in particular a
pending step is always skipped successfully, but a completed step is
overwritten too), returns success and emits `STEP_SKIPPED`. -/
theorem c2_skip_inbounds_sets_skipped (s : AgentSession) (gate : Bool) (i : Nat)
    (h : i < s.step_executions.length) :
    ((handle_command s gate .skip_step (Option.some (i : Int))).session.step_executions.getD i
      default).status = .skipped ∧
    (handle_command s gate .skip_step (Option.some (i : Int))).ok = true ∧
    (handle_command s gate .skip_step (Option.some (i : Int))).events =
      [EventType.STEP_SKIPPED (i : Int)] := by
  obtain ⟨h1, h2, h3⟩ := skip_sets_skipped s gate i h
  exact ⟨by rw [h1], h2, h3⟩

theorem c2_skip_inbounds_sets_skipped_witness :
    ((0 : Nat) < doneSession.step_executions.length) ∧
    ((handle_command doneSession true .skip_step (Option.some 0)).session.step_executions.getD 0
      default).status = .skipped :=
  ⟨by decide, (c2_skip_inbounds_sets_skipped doneSession true 0 (by decide)).1⟩

/-- A session that already reached the terminal state `completed`. -/
def terminalSession : AgentSession :=
  { state := .completed, completed_at_set := true }

/-- C3 counterexample: PAUSE handled on a session in the terminal state
`completed` succeeds and moves the session state to `paused` — the
handler has no terminal-state (or active-state) guard, so terminal states
are not preserved and PAUSE does not require an active session. -/
theorem c3_pause_succeeds_on_terminal_cex :
    terminalSession.state = .completed ∧
    (handle_command terminalSession true .pause Option.none).session.state = .paused ∧
    (handle_command terminalSession true .pause Option.none).ok = true := by
  decide

/-- C3 (amended): `handle_command` never inspects the session state:
PAUSE, RESUME and STOP succeed on any existing session — including one in
a terminal state, which they move to `paused`/`executing`/`cancelled`
respectively — and only SKIP_STEP leaves the session state field
unchanged. -/
theorem c3_commands_ignore_terminal_state (s : AgentSession) (gate : Bool)
    (p : Option Int) :
    (handle_command s gate .pause p).session.state = .paused ∧
    (handle_command s gate .pause p).ok = true ∧
    (handle_command s gate .resume p).session.state = .executing ∧
    (handle_command s gate .resume p).ok = true ∧
    (handle_command s gate .stop p).session.state = .cancelled ∧
    (handle_command s gate .stop p).ok = true ∧
    (handle_command s gate .skip_step p).session.state = s.state := by
  refine ⟨rfl, rfl, rfl, rfl, rfl, rfl, ?_⟩
  unfold handle_command
  dsimp only
  split
  · rfl
  · rfl

/-- C4 counterexample: the SKIP_STEP handler performs the status change
`completed → skipped`, which is not an edge of the per-step state machine
`pending → running → (completed | failed | retrying → running | skipped)`. -/
theorem c4_completed_to_skipped_cex :
    (doneSession.step_executions.getD 0 default).status = .completed ∧
    ((handle_command doneSession false .skip_step (Option.some 0)).session.step_executions.getD 0
      default).status = .skipped ∧
    stepEdge .completed .skipped = false := by
  decide

/-- C4 (amended): the status assignments performed by the step executor
itself do follow the per-step machine — starting from a `pending` record
the sequence of statuses it writes is a path of
`pending → running → (completed | failed | retrying → running)` — but the
SKIP_STEP handler writes `skipped` into any in-bounds record without
inspecting its current status, so `completed → skipped` (and, for a
record the loop later reaches, `skipped → running`) also occur. -/
theorem c4_executor_follows_machine_skip_unconditional
    (cfg : AgentSessionConfig) (k : Bool) (ms : List FeatureMilestone)
    (step : ExecutionStep) (env : Nat → AttemptEnv) (ex : StepExecution)
    (s : AgentSession) (gate : Bool) (i : Nat) :
    (ex.status = .pending →
      chainOk .pending (execute_step cfg k ms step env ex).trace = true) ∧
    (i < s.step_executions.length →
      ((handle_command s gate .skip_step (Option.some (i : Int))).session.step_executions.getD i
        default).status = .skipped) := by
  constructor
  · intro _
    obtain ⟨t, ht, hc⟩ := execute_step_trace_aux cfg k ms step env
      (cfg.max_retries_per_step + 1 - ex.retries) ex (Nat.le_refl _)
    rw [ht]
    simp [chainOk, stepEdge, hc]
  · intro h
    rw [(skip_sets_skipped s gate i h).1]

theorem c4_executor_follows_machine_skip_unconditional_witness :
    chainOk .pending (execute_step {} true [] { order := 1, step_type := .click }
      (fun _ => { actionOk := false }) {}).trace = true ∧
    ((handle_command doneSession false .skip_step (Option.some 0)).session.step_executions.getD 0
      default).status = .skipped :=
  ⟨(c4_executor_follows_machine_skip_unconditional {} true [] { order := 1, step_type := .click }
      (fun _ => { actionOk := false }) {} doneSession false 0).1 rfl,
   (c4_executor_follows_machine_skip_unconditional {} true [] { order := 1, step_type := .click }
      (fun _ => { actionOk := false }) {} doneSession false 0).2 (by decide)⟩

/-- C10: a SKIP_STEP whose step index is negative or not less than the
number of step-execution records returns `False`, mutates neither the
records nor the session state, and emits no event — the handler
bounds-checks the index before any access. -/
theorem c10_skip_out_of_bounds_noop (s : AgentSession) (gate : Bool) (idx : Int)
    (h : idx < 0 ∨ (s.step_executions.length : Int) ≤ idx) :
    handle_command s gate .skip_step (Option.some idx) =
      { session := s, gate := gate, ok := false, events := [] } := by
  unfold handle_command
  dsimp only
  simp only [Option.getD_some]
  rw [if_neg (by omega)]

theorem c10_skip_out_of_bounds_noop_witness :
    ((-1 : Int) < 0 ∨ (doneSession.step_executions.length : Int) ≤ -1) ∧
    handle_command doneSession true .skip_step (Option.some (-1)) =
      { session := doneSession, gate := true, ok := false, events := [] } :=
  ⟨Or.inl (by decide),
   c10_skip_out_of_bounds_noop doneSession true (-1) (Or.inl (by decide))⟩

/-- A one-step plan (a clickable step of order 1). -/
def planC1 : ExecutionPlan := { steps := [{ order := 1, step_type := .click }] }

/-- The failing schedule for the cancellation guarantee: PAUSE is handled
before the loop's pause-gate wait of iteration 0 (closing the gate), then
STOP is handled while the loop is blocked on the gate (setting the state
to `cancelled` and opening the gate, as the STOP handler does). -/
def schedC1 : CommandSched :=
  { pre := fun i => if i = 0 then [(.pause, Option.none)] else [],
    atGate := fun i => if i = 0 then [(.stop, Option.none)] else [] }

/-- C1: evaluating the loop at the failing schedule. After STOP is
handled (while the loop is parked on the pause gate with step 0 still
`pending`), the loop wakes, sees a state different from `paused`, and
runs step 0 anyway: the final session is `cancelled`, yet the record that
was `pending` when STOP was handled ends `completed`, and the event
stream shows `STEP_STARTED` after `EXECUTION_CANCELLED`. The spec demands
that a step still pending when STOP is handled never leaves `pending`. -/
theorem c1_stop_at_pause_gate_still_runs_step :
    (run_execution_cmds {} true planC1 (fun _ _ => {}) schedC1).session.state = .cancelled ∧
    ((run_execution_cmds {} true planC1 (fun _ _ => {}) schedC1).session.step_executions.map
      (fun e => e.status)) = [.completed] ∧
    (run_execution_cmds {} true planC1 (fun _ _ => {}) schedC1).events =
      [.EXECUTION_STARTED, .EXECUTION_PAUSED, .EXECUTION_CANCELLED,
       .STEP_STARTED 1, .STATE_VERIFIED 1, .STEP_COMPLETED 1] := by
  simp [run_execution_cmds, run_steps_cmds, apply_cmds, handle_command, planC1,
    schedC1, create_session, mk_step_executions, execute_step, attempt_step,
    attempt_action, verify_state, oracleOps, verify_consults_oracle,
    step_to_browser_action, check_milestone, modifyAt, optStr]

/-- A configuration with two retries allowed but recovery disabled. -/
def cfgNoRecovery : AgentSessionConfig :=
  { max_retries_per_step := 2, enable_recovery := false }

/-- A clickable step paired with an environment whose browser action
fails on every attempt. -/
def clickStep : ExecutionStep := { order := 1, step_type := .click }

def alwaysFailEnv : AttemptEnv := { actionOk := false }

/-- C5 counterexample: with `max_retries_per_step = 2` but
`enable_recovery = false`, a step whose action fails on every attempt
ends `failed` after exactly one attempt, not after
`max_retries_per_step + 1 = 3` attempts: the retry guard of
`_execute_step` also requires `enable_recovery`, so the claimed attempt
count does not hold for every session configuration. -/
theorem c5_recovery_disabled_single_attempt_cex :
    (attempt_step cfgNoRecovery true clickStep alwaysFailEnv).err.isSome = true ∧
    (execute_step cfgNoRecovery true [] clickStep (fun _ => alwaysFailEnv) {}).ex.status = .failed ∧
    (execute_step cfgNoRecovery true [] clickStep (fun _ => alwaysFailEnv) {}).attempts = 1 ∧
    cfgNoRecovery.max_retries_per_step + 1 = 3 := by
  refine ⟨by decide, ?_, ?_, by decide⟩ <;>
    simp [execute_step, attempt_step, attempt_action, verify_state, oracleOps,
      verify_consults_oracle, step_to_browser_action, check_milestone,
      cfgNoRecovery, clickStep, alwaysFailEnv, optStr]

/-- C5 (amended): starting from a fresh record, the retry counter never
exceeds `max_retries_per_step` (for any environment), and a step whose
attempt fails every time ends `failed`; it takes exactly
`max_retries_per_step + 1` attempts when recovery is enabled, and exactly
1 attempt when recovery is disabled. The recursion is realized as a total
function, so it always terminates. -/
theorem c5_retry_bound_and_attempt_count (cfg : AgentSessionConfig) (k : Bool)
    (ms : List FeatureMilestone) (step : ExecutionStep) :
    (∀ (env : Nat → AttemptEnv) (ex : StepExecution), ex.retries = 0 →
      (execute_step cfg k ms step env ex).ex.retries ≤ cfg.max_retries_per_step) ∧
    (∀ (env : Nat → AttemptEnv) (ex : StepExecution),
      (∀ j, (attempt_step cfg k step (env j)).err.isSome = true) → ex.retries = 0 →
      (execute_step cfg k ms step env ex).ex.status = .failed ∧
      (cfg.enable_recovery = true →
        (execute_step cfg k ms step env ex).attempts = cfg.max_retries_per_step + 1) ∧
      (cfg.enable_recovery = false →
        (execute_step cfg k ms step env ex).attempts = 1)) := by
  constructor
  · intro env ex h0
    exact execute_step_retries_le_aux cfg k ms step env
      (cfg.max_retries_per_step + 1 - ex.retries) ex (Nat.le_refl _) (by omega)
  · intro env ex H h0
    obtain ⟨h1, h2, h3⟩ := execute_step_attempts_aux cfg k ms step env H
      (cfg.max_retries_per_step + 1 - ex.retries) ex (Nat.le_refl _)
    refine ⟨h1, fun hrec => ?_, h2⟩
    rw [h3 hrec (by omega), h0]
    omega

theorem c5_retry_bound_and_attempt_count_witness :
    (execute_step { max_retries_per_step := 2 } true [] clickStep
      (fun _ => alwaysFailEnv) {}).ex.retries ≤ 2 ∧
    (execute_step { max_retries_per_step := 2 } true [] clickStep
      (fun _ => alwaysFailEnv) {}).ex.status = .failed ∧
    (execute_step { max_retries_per_step := 2 } true [] clickStep
      (fun _ => alwaysFailEnv) {}).attempts = 2 + 1 :=
  ⟨(c5_retry_bound_and_attempt_count { max_retries_per_step := 2 } true [] clickStep).1
      (fun _ => alwaysFailEnv) {} rfl,
   ((c5_retry_bound_and_attempt_count { max_retries_per_step := 2 } true [] clickStep).2
      (fun _ => alwaysFailEnv) {} (fun j => by
        show (attempt_step { max_retries_per_step := 2 } true clickStep alwaysFailEnv).err.isSome = true
        decide) rfl).1,
   ((c5_retry_bound_and_attempt_count { max_retries_per_step := 2 } true [] clickStep).2
      (fun _ => alwaysFailEnv) {} (fun j => by
        show (attempt_step { max_retries_per_step := 2 } true clickStep alwaysFailEnv).err.isSome = true
        decide) rfl).2.1 rfl⟩

/-- C6: in a command-free run with successful setup (the scope in which
per-step failures can occur without a setup failure or an engine
exception), every step record leaves `pending` — the loop continues past
failed steps — the session always terminates in state `completed` (never
`failed` on account of step failures), and a record that ends `failed`
has its per-step error recorded. -/
theorem c6_step_failures_nonfatal (cfg : AgentSessionConfig) (k : Bool)
    (plan : ExecutionPlan) (env : Nat → Nat → AttemptEnv) :
    (run_execution cfg k plan env).1.state = .completed ∧
    (∀ t, t < plan.steps.length →
      ((run_execution cfg k plan env).1.step_executions.getD t default).status = .completed ∨
      (((run_execution cfg k plan env).1.step_executions.getD t default).status = .failed ∧
       ((run_execution cfg k plan env).1.step_executions.getD t default).error.isSome = true)) := by
  obtain ⟨h1, _h2, h3, _h4⟩ := run_execution_spec cfg k plan env
  refine ⟨h1, fun t ht => ?_⟩
  rw [h3 t ht]
  exact execute_step_final_status_aux cfg k plan.milestones
    (plan.steps.getD t default) (env t) (cfg.max_retries_per_step + 1) _
    (Nat.sub_le _ _)

/-- Plan of three steps whose middle step always fails (scenario B). -/
def stepB1 : ExecutionStep := { order := 1, step_type := .navigate }

def stepB2 : ExecutionStep := { order := 2, step_type := .click }

def stepB3 : ExecutionStep := { order := 3, step_type := .click }

def planB : ExecutionPlan := { steps := [stepB1, stepB2, stepB3] }

def envB : Nat → Nat → AttemptEnv := fun i _ => if i = 1 then alwaysFailEnv else {}

theorem c6_step_failures_nonfatal_witness :
    (run_execution {} true planB envB).1.state = .completed ∧
    (((run_execution {} true planB envB).1.step_executions.getD 1 default).status = .completed ∨
     (((run_execution {} true planB envB).1.step_executions.getD 1 default).status = .failed ∧
      ((run_execution {} true planB envB).1.step_executions.getD 1 default).error.isSome = true)) :=
  ⟨(c6_step_failures_nonfatal {} true planB envB).1,
   (c6_step_failures_nonfatal {} true planB envB).2 1 (by decide)⟩

/-- `verify_state` reports `ready` whenever the oracle call (or the parse
of its reply) raised, whatever the step and key configuration. -/
theorem verify_error_ready (k : Bool) (step : ExecutionStep) (m : String) :
    (verify_state k step (Except.error m)).ready = true := by
  unfold verify_state
  repeat' split
  all_goals try rfl
  all_goals rename_i heq
  all_goals simp at heq

/-- An attempt whose oracle calls raise and whose browser action succeeds
raises nothing: verification fails open and the action carries the
attempt. -/
theorem attempt_ok_of_oracle_error (cfg : AgentSessionConfig) (k : Bool)
    (step : ExecutionStep) (a : AttemptEnv) (ha : a.actionOk = true)
    (h1 : ∃ m, a.oracle1 = Except.error m) (h2 : ∃ m, a.oracle2 = Except.error m) :
    (attempt_step cfg k step a).err = Option.none := by
  obtain ⟨m1, hm1⟩ := h1
  obtain ⟨m2, hm2⟩ := h2
  unfold attempt_step attempt_action
  dsimp only
  rw [hm1, hm2]
  simp [verify_error_ready, ha]
  repeat' split
  all_goals simp [verify_error_ready, ha]

/-- C7: when the vision-oracle call raises (network or parse error),
`verify_state` fails open — it returns `ready = true` with the low
confidence 3/10 and the error recorded as the issue, instead of
propagating — and consequently an oracle that raises on every call never
prevents a plan whose browser actions succeed from reaching `completed`
with every step record `completed`. -/
theorem c7_oracle_failure_fails_open (step : ExecutionStep) (e : String)
    (cfg : AgentSessionConfig) (plan : ExecutionPlan) (env : Nat → Nat → AttemptEnv) :
    (verify_consults_oracle true step = true →
      verify_state true step (Except.error e) =
        { ready := true, confidence := 3/10, issue := Option.some e }) ∧
    ((∀ i j, (env i j).actionOk = true ∧
        (∃ m, (env i j).oracle1 = Except.error m) ∧
        (∃ m, (env i j).oracle2 = Except.error m)) →
      (run_execution cfg true plan env).1.state = .completed ∧
      (∀ t, t < plan.steps.length →
        ((run_execution cfg true plan env).1.step_executions.getD t default).status =
          .completed)) := by
  constructor
  · intro h
    have hns : ¬(step.step_type = .narrate ∨ step.step_type = .wait ∨
        step.step_type = .screenshot) := by
      unfold verify_consults_oracle at h
      simpa using h
    unfold verify_state
    rw [if_neg (by simp), if_neg hns]
  · intro H
    obtain ⟨h1, _h2, h3, _h4⟩ := run_execution_spec cfg true plan env
    refine ⟨h1, fun t ht => ?_⟩
    rw [h3 t ht]
    have hatt := attempt_ok_of_oracle_error cfg true (plan.steps.getD t default)
      (env t ((mk_step_executions plan).getD t default).retries)
      (H t _).1 (H t _).2.1 (H t _).2.2
    exact (execute_step_first_success cfg true plan.milestones
      (plan.steps.getD t default) (env t) _ hatt).1

/-- A one-step clickable plan with an environment whose oracle raises on
every call while the action executor succeeds. -/
def planC7 : ExecutionPlan := { steps := [clickStep] }

def envC7 : Nat → Nat → AttemptEnv :=
  fun _ _ => { oracle1 := Except.error "boom", oracle2 := Except.error "boom" }

theorem c7_oracle_failure_fails_open_witness :
    verify_state true clickStep (Except.error "boom") =
      { ready := true, confidence := 3/10, issue := Option.some "boom" } ∧
    (run_execution {} true planC7 envC7).1.state = .completed ∧
    ((run_execution {} true planC7 envC7).1.step_executions.getD 0 default).status = .completed :=
  ⟨(c7_oracle_failure_fails_open clickStep "boom" {} planC7 envC7).1 (by decide),
   ((c7_oracle_failure_fails_open clickStep "boom" {} planC7 envC7).2
     (fun i j => ⟨rfl, ⟨"boom", rfl⟩, ⟨"boom", rfl⟩⟩)).1,
   ((c7_oracle_failure_fails_open clickStep "boom" {} planC7 envC7).2
     (fun i j => ⟨rfl, ⟨"boom", rfl⟩, ⟨"boom", rfl⟩⟩)).2 0 (by decide)⟩

/-- A configuration with recovery enabled but auto-screenshot disabled. -/
def cfgNoShot : AgentSessionConfig := { auto_screenshot := false, enable_recovery := true }

/-- C8 counterexample: with recovery enabled and a vision oracle
configured (API key present), a state-sensitive (click) step is attempted
without any screenshot and without any oracle call when `auto_screenshot`
is disabled: the attempt goes straight to the browser action, so the
claimed lack of further preconditions on the session configuration is
false — verification also requires `auto_screenshot`. -/
theorem c8_no_oracle_call_without_auto_screenshot_cex :
    cfgNoShot.enable_recovery = true ∧
    verify_consults_oracle true clickStep = true ∧
    (attempt_step cfgNoShot true clickStep {}).ops = [.actionExec] ∧
    EngineOp.oracleCall ∉ (attempt_step cfgNoShot true clickStep {}).ops := by
  decide

/-- C8 (amended): for a state-sensitive step, with recovery enabled, a
vision oracle configured, auto-screenshot enabled and the capture
returning data, the attempt's first two collaborator operations are the
screenshot capture followed by the oracle call — both before any browser
action execution. -/
theorem c8_verification_requires_screenshot (cfg : AgentSessionConfig)
    (step : ExecutionStep) (a : AttemptEnv)
    (h1 : cfg.enable_recovery = true) (h2 : cfg.auto_screenshot = true)
    (h3 : a.shot1 = true) (h4 : verify_consults_oracle true step = true) :
    (attempt_step cfg true step a).ops.take 2 = [.shot, .oracleCall] := by
  unfold attempt_step attempt_action oracleOps
  dsimp only
  simp only [h1, h2, h3, h4, if_true, Bool.and_self]
  repeat' split
  all_goals simp

theorem c8_verification_requires_screenshot_witness :
    (attempt_step {} true clickStep {}).ops.take 2 = [.shot, .oracleCall] :=
  c8_verification_requires_screenshot {} clickStep {} rfl rfl rfl (by decide)

theorem countFM_flatten (mid : String) (l : List (List EventType)) :
    countFM mid l.flatten = (l.map (countFM mid)).sum := by
  induction l with
  | nil => rfl
  | cons x rest ih => simp [List.flatten_cons, countFM_append, ih]

theorem countFM_map_fm (mid : String) (l : List FeatureMilestone) :
    countFM mid (l.map (fun m2 => EventType.FEATURE_MILESTONE m2.id)) =
      (l.filter (fun m2 => m2.id == mid)).length := by
  induction l with
  | nil => rfl
  | cons m rest ih =>
      by_cases h : m.id = mid
      · simp [countFM, List.filter_cons, h, ih]
        omega
      · simp [countFM, List.filter_cons, h, ih]

/-- `_check_milestone` emits exactly one event for a milestone (whose id
is unique in the plan) when the completed step order equals its
`end_step`, and none otherwise. -/
theorem countFM_check (ms : List FeatureMilestone) (m : FeatureMilestone) (o : Int)
    (hmid : ms.filter (fun m2 => m2.id == m.id) = [m]) :
    countFM m.id (check_milestone ms o) = if m.end_step == o then 1 else 0 := by
  unfold check_milestone
  rw [countFM_map_fm]
  rw [List.filter_comm]
  rw [hmid]
  by_cases h : m.end_step = o
  · simp [List.filter_cons, h]
  · simp [List.filter_cons, h]

/-- One `_execute_step` run emits the milestone events of the step's
order exactly when the record ends `completed`, and none otherwise. -/
theorem countFM_exec (mid : String) (cfg : AgentSessionConfig) (k : Bool)
    (ms : List FeatureMilestone) (step : ExecutionStep) (env : Nat → AttemptEnv)
    (ex : StepExecution) :
    countFM mid (execute_step cfg k ms step env ex).events =
      if (execute_step cfg k ms step env ex).ex.status = .completed
        then countFM mid (check_milestone ms step.order) else 0 := by
  obtain ⟨hc, hn⟩ := execute_step_fm_aux mid cfg k ms step env
    (cfg.max_retries_per_step + 1) ex (Nat.sub_le _ _)
  by_cases h : (execute_step cfg k ms step env ex).ex.status = .completed
  · obtain ⟨pre, hpre, hcnt⟩ := hc h
    rw [if_pos h, hpre]
    simp [countFM_append, hcnt, countFM]
  · rw [if_neg h]
    exact hn h

theorem sum_range_map_single (f : Nat → Nat) :
    ∀ (n i : Nat), i < n → (∀ t, t < n → t ≠ i → f t = 0) →
    ((List.range n).map f).sum = f i := by
  intro n
  induction n with
  | zero => intro i hi; omega
  | succ m ih =>
      intro i hi h0
      rw [List.range_succ, List.map_append, List.sum_append]
      by_cases hc : i = m
      · subst hc
        have hz : ((List.range i).map f).sum = 0 := by
          apply List.sum_eq_zero
          intro x hx
          obtain ⟨t, ht, rfl⟩ := List.mem_map.mp hx
          exact h0 t (by have := List.mem_range.mp ht; omega)
            (by have := List.mem_range.mp ht; omega)
        simp [hz]
      · have him : i < m := by omega
        rw [ih i him (fun t ht hne => h0 t (by omega) hne)]
        have hm : f m = 0 := h0 m (by omega) (by omega)
        simp [hm]

/-- A one-step plan whose only step always fails, with a milestone whose
`end_step` is that step's order. -/
def planC9 : ExecutionPlan :=
  { steps := [clickStep],
    milestones := [{ id := "m1", start_step := 1, end_step := 1 }] }

def envFail : Nat → Nat → AttemptEnv := fun _ _ => alwaysFailEnv

/-- C9 counterexample: `_check_milestone` is invoked only on the success
path of `_execute_step`; when the step whose order equals the milestone's
`end_step` reaches the terminal per-step state `failed`, no
`FEATURE_MILESTONE` event is emitted at all — not exactly one as claimed
for every terminal state. -/
theorem c9_milestone_not_fired_on_failed_step_cex :
    ((run_execution {} true planC9 envFail).1.step_executions.getD 0 default).status = .failed ∧
    countFM "m1" (run_execution {} true planC9 envFail).2 = 0 := by
  constructor <;>
    simp [run_execution, run_steps, create_session, mk_step_executions, planC9,
      envFail, execute_step, attempt_step, attempt_action, verify_state,
      oracleOps, verify_consults_oracle, step_to_browser_action,
      check_milestone, modifyAt, optStr, countFM, clickStep, alwaysFailEnv]

/-- C9 (amended): for a milestone `m` whose id is unique among the plan's
milestones and whose `end_step` is the order of exactly one plan step
(the step at index `i`), a command-free run emits `FEATURE_MILESTONE` for
`m` exactly once if that step ends `completed` and not at all if it ends
otherwise (e.g. `failed`); when it is emitted, it appears immediately
after that step's `STEP_COMPLETED`, never earlier in the step's events,
together with the events of every other milestone the same step order
closes. -/
theorem c9_milestone_fires_iff_step_completes (cfg : AgentSessionConfig)
    (k : Bool) (plan : ExecutionPlan) (env : Nat → Nat → AttemptEnv)
    (m : FeatureMilestone) (i : Nat)
    (hmid : plan.milestones.filter (fun m2 => m2.id == m.id) = [m])
    (hi : i < plan.steps.length)
    (horder : (plan.steps.getD i default).order = m.end_step)
    (huniq : ∀ j, j < plan.steps.length →
      (plan.steps.getD j default).order = m.end_step → j = i) :
    countFM m.id (run_execution cfg k plan env).2 =
      (if ((run_execution cfg k plan env).1.step_executions.getD i default).status = .completed
        then 1 else 0) ∧
    (∀ (ms2 : List FeatureMilestone) (step : ExecutionStep)
        (env1 : Nat → AttemptEnv) (ex : StepExecution),
      (execute_step cfg k ms2 step env1 ex).ex.status = .completed →
      ∃ pre, (execute_step cfg k ms2 step env1 ex).events =
          pre ++ [EventType.STEP_COMPLETED step.order] ++ check_milestone ms2 step.order ∧
        countFM m.id pre = 0) := by
  obtain ⟨_h1, _h2, h3, h4⟩ := run_execution_spec cfg k plan env
  constructor
  · rw [h4]
    rw [countFM_append, countFM_append, countFM_flatten, List.map_map]
    have hsingle : ((List.range plan.steps.length).map
        (countFM m.id ∘ fun t =>
          (execute_step cfg k plan.milestones (plan.steps.getD t default) (env t)
            ((mk_step_executions plan).getD t default)).events)).sum =
        countFM m.id ((execute_step cfg k plan.milestones (plan.steps.getD i default) (env i)
          ((mk_step_executions plan).getD i default)).events) := by
      apply sum_range_map_single _ plan.steps.length i hi
      intro t ht hne
      simp only [Function.comp]
      rw [countFM_exec]
      split
      · rw [countFM_check plan.milestones m _ hmid]
        have : ¬ (plan.steps.getD t default).order = m.end_step := by
          intro hcon
          exact hne (huniq t ht hcon)
        simp only [beq_iff_eq]
        rw [if_neg (by intro hcon; exact this hcon.symm)]
      · rfl
    rw [hsingle]
    simp only [Function.comp] at hsingle
    rw [countFM_exec, countFM_check plan.milestones m _ hmid]
    rw [h3 i hi]
    simp only [countFM, beq_iff_eq, horder]
    split
    · simp
    · simp
  · intro ms2 step env1 ex hcomp
    exact (execute_step_fm_aux m.id cfg k ms2 step env1
      (cfg.max_retries_per_step + 1) ex (Nat.sub_le _ _)).1 hcomp

/-- Two-step plan with a milestone closing at the second step's order. -/
def stepW1 : ExecutionStep := { order := 1, step_type := .navigate }

def stepW2 : ExecutionStep := { order := 2, step_type := .click }

def mW : FeatureMilestone := { id := "mW", start_step := 1, end_step := 2 }

def planW : ExecutionPlan := { steps := [stepW1, stepW2], milestones := [mW] }

def envOk : Nat → Nat → AttemptEnv := fun _ _ => {}

theorem c9_milestone_fires_iff_step_completes_witness :
    countFM mW.id (run_execution {} true planW envOk).2 =
      (if ((run_execution {} true planW envOk).1.step_executions.getD 1 default).status = .completed
        then 1 else 0) :=
  (c9_milestone_fires_iff_step_completes {} true planW envOk mW 1
    (by decide) (by decide) (by decide)
    (fun j hj ho => by
      have hj2 : j < 2 := by simpa [planW] using hj
      interval_cases j
      · exact absurd ho (by decide)
      · rfl)).1

end AgentCore
